import Mathlib

/-!
Verification of the grid-to-frames extraction pipeline of `src/utils/imageUtils.ts`
(`getContentBounds`, `performFixedGridSlicing`, `alignAndMaximizeFrames`,
`sliceSpriteSheet`).

Modelling conventions:
* A raster is a width × height RGBA pixel buffer, pixel `(x, y)` stored at list
  index `y * width + x`, exactly like the flat `ImageData` array of the source
  (which stores channel `k` of that pixel at `(y * width + x) * 4 + k`).
* JavaScript `number` arithmetic on the real-valued cell sizes
  (`sourceW / cols`, `sourceX + c * frameWidth`, …) is modelled by exact
  rational arithmetic with an explicit numerator/denominator pair `Q`;
  every denominator produced by the pipeline is positive.
* Asynchronous image decoding is a platform primitive: the decoded input of
  `sliceSpriteSheet` is an `Option Raster`, `none` standing for the
  `img.onerror` path.
* Canvas `drawImage` resampling of a real-valued source rectangle is a platform
  primitive outside this repository; it is modelled as nearest-neighbour
  sampling (`samplePixel`) of the source raster, reads outside the canvas being
  transparent black.  `clearRect` sets pixels to transparent black, and a fresh
  canvas is transparent black, as in the HTML canvas specification.
-/

namespace ToonMotion

/-- One RGBA pixel; each channel is an 8-bit value stored as a `Nat`
(the pipeline only ever compares channels, never does arithmetic on them). -/
structure Pixel where
  r : Nat
  g : Nat
  b : Nat
  a : Nat
deriving DecidableEq, Repr

/-- Transparent black, the value `clearRect` writes and fresh canvases hold. -/
def transparent : Pixel := ⟨0, 0, 0, 0⟩

/-- A rectangular RGBA pixel buffer (the model of a canvas / `ImageData`). -/
structure Raster where
  width : Nat
  height : Nat
  data : List Pixel
deriving DecidableEq, Repr

/-- Pixel of `img` at `(x, y)`: flat index `y * width + x`, out-of-range reads
giving transparent black (canvas semantics). -/
def pixelAt (img : Raster) (x y : Nat) : Pixel :=
  (img.data[y * img.width + x]?).getD transparent

/-- The bounding box record returned by `getContentBounds`:
`{x: minX, y: minY, w: maxX - minX + 1, h: maxY - minY + 1}`. -/
structure Bounds where
  x : Nat
  y : Nat
  w : Nat
  h : Nat
deriving DecidableEq, Repr

/-- Exact rational number (numerator / denominator), the model of the
real-valued JavaScript arithmetic in the slicing code.  Operations keep the
fraction unnormalised; every denominator the pipeline builds is positive. -/
structure Q where
  num : Int
  den : Nat
deriving DecidableEq, Repr

/-- Embed a natural number as a rational. -/
def Q.ofNat (n : Nat) : Q := ⟨n, 1⟩

/-- Exact rational addition. -/
def Q.add (a b : Q) : Q := ⟨a.num * b.den + b.num * a.den, a.den * b.den⟩

/-- Exact rational subtraction. -/
def Q.sub (a b : Q) : Q := ⟨a.num * b.den - b.num * a.den, a.den * b.den⟩

/-- Exact rational multiplication. -/
def Q.mul (a b : Q) : Q := ⟨a.num * b.num, a.den * b.den⟩

/-- Exact rational division; the sign factor keeps the denominator a `Nat`. -/
def Q.div (a b : Q) : Q := ⟨a.num * b.den * b.num.sign, a.den * b.num.natAbs⟩

/-- `a ≤ b` by cross-multiplication (denominators are positive in every use). -/
def Q.le (a b : Q) : Bool := decide (a.num * (b.den : Int) ≤ b.num * (a.den : Int))

/-- `a < b` by cross-multiplication (denominators are positive in every use). -/
def Q.lt (a b : Q) : Bool := decide (a.num * (b.den : Int) < b.num * (a.den : Int))

/-- `Math.floor`, exact on rationals. -/
def Q.floor (a : Q) : Int := Int.fdiv a.num a.den

/-- `Math.ceil`, exact on rationals. -/
def Q.ceil (a : Q) : Int := - Int.fdiv (- a.num) a.den

/-- `Math.floor` truncated to `Nat` (used for pixel coordinates, always ≥ 0). -/
def Q.floorN (a : Q) : Nat := a.floor.toNat

/-- `Math.ceil` truncated to `Nat` (used for canvas sizes, always ≥ 0). -/
def Q.ceilN (a : Q) : Nat := a.ceil.toNat

/-- Whiteness threshold of `getContentBounds` (`const whiteThreshold = 240`). -/
def whiteThreshold : Nat := 240

/-- The "content" test of `getContentBounds`: visible (`alpha > 20`) and not
near-white (`r < 240 || g < 240 || b < 240`). -/
def isForeground (p : Pixel) : Bool :=
  decide (20 < p.a) &&
    (decide (p.r < whiteThreshold) || decide (p.g < whiteThreshold) ||
      decide (p.b < whiteThreshold))

/-- The running state of the `getContentBounds` scan
(`minX`, `minY`, `maxX`, `maxY`, `found`). -/
structure BState where
  minX : Nat
  minY : Nat
  maxX : Nat
  maxY : Nat
  found : Bool
deriving DecidableEq, Repr

/-- One iteration of the double loop of `getContentBounds` at position `p`:
when the pixel is foreground, update the running min/max and set `found`. -/
def scanStep (img : Raster) (s : BState) (p : Nat × Nat) : BState :=
  if isForeground (pixelAt img p.1 p.2) then
    { minX := min s.minX p.1, minY := min s.minY p.2,
      maxX := max s.maxX p.1, maxY := max s.maxY p.2, found := true }
  else s

/-- All pixel positions `(x, y)` of a `w × h` raster in scan order
(`y` outer, `x` inner). -/
def scanPositions (w h : Nat) : List (Nat × Nat) :=
  (List.range h).flatMap fun y => (List.range w).map fun x => (x, y)

/-- `getContentBounds`: scan every pixel, tracking min/max coordinates of
foreground pixels; `none` when no pixel qualifies, else the tight box
`{x: minX, y: minY, w: maxX - minX + 1, h: maxY - minY + 1}`. -/
def getContentBounds (img : Raster) : Option Bounds :=
  let s := (scanPositions img.width img.height).foldl (scanStep img)
    ⟨img.width, img.height, 0, 0, false⟩
  if s.found then some ⟨s.minX, s.minY, s.maxX - s.minX + 1, s.maxY - s.minY + 1⟩
  else none

/-- Foreground test of a scan position (the loop body condition). -/
def fgPix (img : Raster) (p : Nat × Nat) : Bool := isForeground (pixelAt img p.1 p.2)

/-- The foreground positions of a raster, in scan order. -/
def fgList (img : Raster) : List (Nat × Nat) :=
  (scanPositions img.width img.height).filter (fgPix img)

/-- Nearest-neighbour read of the source raster at a real-valued coordinate;
outside the canvas the read is transparent black (models `drawImage`
sampling, a platform primitive). -/
def samplePixel (img : Raster) (qx qy : Q) : Pixel :=
  if (Q.ofNat 0).le qx && qx.lt (Q.ofNat img.width) &&
     (Q.ofNat 0).le qy && qy.lt (Q.ofNat img.height) then
    pixelAt img qx.floorN qy.floorN
  else transparent

/-- One `drawImage` cell extraction of `performFixedGridSlicing`: the source
sub-rectangle at real-valued offset `(ox, oy)` with real-valued size
`(fw, fh)` is resampled into a fresh canvas of `ceil(fw) × ceil(fh)` pixels
(`Math.ceil` avoids sub-pixel clipping).  Resampling is modelled as
nearest-neighbour sampling of the real source rectangle. -/
def extractCell (img : Raster) (ox oy fw fh : Q) : Raster :=
  let w := fw.ceilN
  let h := fh.ceilN
  ⟨w, h, (List.range (w * h)).map fun i =>
    samplePixel img (ox.add ((Q.ofNat (i % w)).mul (fw.div (Q.ofNat w))))
      (oy.add ((Q.ofNat (i / w)).mul (fh.div (Q.ofNat h))))⟩

/-- The "grid area" of `performFixedGridSlicing`: the global content bounds of
the sheet, falling back to the entire canvas when no content is found. -/
def gridArea (img : Raster) : Bounds :=
  match getContentBounds img with
  | some b => b
  | none => ⟨0, 0, img.width, img.height⟩

/-- The grid-partition phase of `performFixedGridSlicing`: the grid area is
divided into `rows × cols` equal real-valued cells, extracted in row-major
order at offset `(gridArea.x + c * frameWidth, gridArea.y + r * frameHeight)`. -/
def partitionCells (img : Raster) (rows cols : Nat) : List Raster :=
  let g := gridArea img
  let fw := (Q.ofNat g.w).div (Q.ofNat cols)
  let fh := (Q.ofNat g.h).div (Q.ofNat rows)
  (List.range rows).flatMap fun r =>
    (List.range cols).map fun c =>
      extractCell img ((Q.ofNat g.x).add ((Q.ofNat c).mul fw))
        ((Q.ofNat g.y).add ((Q.ofNat r).mul fh)) fw fh

/-- Width of the safety margin shaved off every cell edge
(`const safetyShave = 4`). -/
def safetyShave : Nat := 4

/-- Whether `(x, y)` lies in one of the four `clearRect` margins of a
`w × h` cell (top, bottom, left or right `safetyShave`-wide strip). -/
def inShaveMargin (w h x y : Nat) : Bool :=
  decide (y < safetyShave) || decide (h - safetyShave ≤ y) ||
    decide (x < safetyShave) || decide (w - safetyShave ≤ x)

/-- The four `clearRect` calls of the safety-cleaning step: every pixel in the
edge margins becomes transparent black, the rest of the cell is unchanged. -/
def shaveEdges (c : Raster) : Raster :=
  ⟨c.width, c.height, (List.range (c.width * c.height)).map fun i =>
    if inShaveMargin c.width c.height (i % c.width) (i / c.width) then transparent
    else (c.data[i]?).getD transparent⟩

/-- The background-removal test (`data[i] > 230 && data[i+1] > 230 &&
data[i+2] > 230`). -/
def keyOut (p : Pixel) : Bool :=
  decide (230 < p.r) && decide (230 < p.g) && decide (230 < p.b)

/-- The optional white-removal pass: every near-white pixel gets alpha 0,
all other pixels (and all colour channels) are untouched. -/
def removeBgPass (c : Raster) : Raster :=
  ⟨c.width, c.height, c.data.map fun p => if keyOut p then { p with a := 0 } else p⟩

/-- The per-cell sanitising step of `performFixedGridSlicing`: edge shave,
then the optional background removal. -/
def sanitizeCell (removeBg : Bool) (c : Raster) : Raster :=
  let s := shaveEdges c
  if removeBg then removeBgPass s else s

/-- The raw grid cells of `performFixedGridSlicing` after per-cell sanitising,
in row-major order (the `rawCanvases` array). -/
def sanitizedCells (img : Raster) (rows cols : Nat) (removeBg : Bool) : List Raster :=
  (partitionCells img rows cols).map (sanitizeCell removeBg)

/-- The single pass of `alignAndMaximizeFrames` accumulating `maxContentW` and
`maxContentH` over the per-frame bounds (`none` entries are skipped). -/
def maxDims (bounds : List (Option Bounds)) : Nat × Nat :=
  bounds.foldl (fun m b => match b with
    | some bb => (max m.1 bb.w, max m.2 bb.h)
    | none => m) (0, 0)

/-- A fully transparent `w × h` canvas. -/
def blankRaster (w h : Nat) : Raster :=
  ⟨w, h, List.replicate (w * h) transparent⟩

/-- One output frame of `alignAndMaximizeFrames`: a fresh `fw × fh` canvas; a
frame with detected bounds has its bound region drawn centred at the
real-valued offset `((fw - b.w) / 2, (fh - b.h) / 2)` (modelled as
nearest-neighbour placement), an empty frame stays fully transparent. -/
def renderCentered (f : Raster) (b : Option Bounds) (fw fh : Nat) : Raster :=
  match b with
  | none => blankRaster fw fh
  | some bb =>
    let tx : Q := ⟨(fw : Int) - (bb.w : Int), 2⟩
    let ty : Q := ⟨(fh : Int) - (bb.h : Int), 2⟩
    ⟨fw, fh, (List.range (fw * fh)).map fun i =>
      let u := Q.ofNat (i % fw)
      let v := Q.ofNat (i / fw)
      if tx.le u && u.lt (tx.add (Q.ofNat bb.w)) &&
         ty.le v && v.lt (ty.add (Q.ofNat bb.h)) then
        samplePixel f ((Q.ofNat bb.x).add (u.sub tx)) ((Q.ofNat bb.y).add (v.sub ty))
      else transparent⟩

/-- `alignAndMaximizeFrames`: detect each frame's content bounds, compute the
maximal content size, and short-circuit to the empty list when
`maxContentW === 0 || maxContentH === 0`; otherwise re-render every frame on
a uniform `(maxContentW + 2*2) × (maxContentH + 2*2)` canvas (`padding = 2`)
with its content centred, empty frames staying transparent. -/
def alignAndMaximizeFrames (frames : List Raster) : List Raster :=
  let bounds := frames.map getContentBounds
  let md := maxDims bounds
  if md.1 = 0 ∨ md.2 = 0 then []
  else
    frames.map fun f => renderCentered f (getContentBounds f) (md.1 + 2 * 2) (md.2 + 2 * 2)

/-- The maximum detected content width over the frames with content
(`maxContentW`). -/
def maxBoundW (frames : List Raster) : Nat :=
  ((frames.filterMap getContentBounds).map Bounds.w).foldl max 0

/-- The maximum detected content height over the frames with content
(`maxContentH`). -/
def maxBoundH (frames : List Raster) : Nat :=
  ((frames.filterMap getContentBounds).map Bounds.h).foldl max 0

/-- `performFixedGridSlicing`: trim to the global content box, slice the grid,
sanitise every cell, then normalise with `alignAndMaximizeFrames`. -/
def performFixedGridSlicing (img : Raster) (rows cols : Nat) (removeBg : Bool) :
    List Raster :=
  alignAndMaximizeFrames (sanitizedCells img rows cols removeBg)

/-- `sliceSpriteSheet`: the orchestrator.  The decoded source is an
`Option Raster` (`none` = the `img.onerror` path, which resolves `[]`);
a decoded image goes through `performFixedGridSlicing`. -/
def sliceSpriteSheet (decoded : Option Raster) (rows cols : Nat)
    (removeBg : Bool) : List Raster :=
  match decoded with
  | none => []
  | some img => performFixedGridSlicing img rows cols removeBg

/-- An opaque black pixel (foreground content). -/
def pxInk : Pixel := ⟨0, 0, 0, 255⟩

/-- An opaque white pixel (background). -/
def pxWhite : Pixel := ⟨255, 255, 255, 255⟩

/-- A 1 × 1 fully white raster: decodes fine, but contains no foreground. -/
def imgWhite1 : Raster := ⟨1, 1, [pxWhite]⟩

/-- A 1 × 1 raster with a single foreground pixel. -/
def imgInk1 : Raster := ⟨1, 1, [pxInk]⟩

/-- A 1 × 1 fully transparent raster. -/
def imgClear1 : Raster := ⟨1, 1, [transparent]⟩

/-- A 2 × 2 raster whose only foreground pixel is at `(1, 1)`. -/
def imgC2 : Raster := ⟨2, 2, [pxWhite, pxWhite, pxWhite, pxInk]⟩



/-! ### Generic fold lemmas for running minima and maxima -/

theorem foldl_min_le_init (l : List Nat) (a : Nat) : l.foldl min a ≤ a := by
  induction l generalizing a with
  | nil => exact Nat.le_refl a
  | cons b t ih => exact Nat.le_trans (ih (min a b)) (Nat.min_le_left a b)

theorem foldl_min_le_mem (l : List Nat) (a x : Nat) (hx : x ∈ l) :
    l.foldl min a ≤ x := by
  induction l generalizing a with
  | nil => cases hx
  | cons b t ih =>
    rcases List.mem_cons.mp hx with h | h
    · subst h
      exact Nat.le_trans (foldl_min_le_init t (min a x)) (Nat.min_le_right a x)
    · exact ih (min a b) h

theorem foldl_min_init_or_mem (l : List Nat) (a : Nat) :
    l.foldl min a = a ∨ l.foldl min a ∈ l := by
  induction l generalizing a with
  | nil => exact Or.inl rfl
  | cons b t ih =>
    rcases ih (min a b) with h | h
    · rcases min_choice a b with hm | hm
      · exact Or.inl (by rw [List.foldl_cons, h, hm])
      · exact Or.inr (by rw [List.foldl_cons, h, hm]; exact List.mem_cons_self b t)
    · exact Or.inr (List.mem_cons_of_mem b h)

theorem le_foldl_max_init (l : List Nat) (a : Nat) : a ≤ l.foldl max a := by
  induction l generalizing a with
  | nil => exact Nat.le_refl a
  | cons b t ih => exact Nat.le_trans (Nat.le_max_left a b) (ih (max a b))

theorem le_foldl_max_mem (l : List Nat) (a x : Nat) (hx : x ∈ l) :
    x ≤ l.foldl max a := by
  induction l generalizing a with
  | nil => cases hx
  | cons b t ih =>
    rcases List.mem_cons.mp hx with h | h
    · subst h
      exact Nat.le_trans (Nat.le_max_right a x) (le_foldl_max_init t (max a x))
    · exact ih (max a b) h

theorem foldl_max_init_or_mem (l : List Nat) (a : Nat) :
    l.foldl max a = a ∨ l.foldl max a ∈ l := by
  induction l generalizing a with
  | nil => exact Or.inl rfl
  | cons b t ih =>
    rcases ih (max a b) with h | h
    · rcases max_choice a b with hm | hm
      · exact Or.inl (by rw [List.foldl_cons, h, hm])
      · exact Or.inr (by rw [List.foldl_cons, h, hm]; exact List.mem_cons_self b t)
    · exact Or.inr (List.mem_cons_of_mem b h)

/-! ### Characterisation of the `getContentBounds` scan -/

theorem mem_scanPositions (w h : Nat) (p : Nat × Nat) :
    p ∈ scanPositions w h ↔ p.1 < w ∧ p.2 < h := by
  cases p with
  | mk a b =>
    simp only [scanPositions, List.mem_flatMap, List.mem_map, List.mem_range,
      Prod.mk.injEq]
    constructor
    · rintro ⟨y, hy, x, hx, rfl, rfl⟩
      exact ⟨hx, hy⟩
    · rintro ⟨ha, hb⟩
      exact ⟨b, hb, a, ha, rfl, rfl⟩

theorem fgPix_eq (img : Raster) (x y : Nat) :
    fgPix img (x, y) = isForeground (pixelAt img x y) := rfl

theorem mem_fgList (img : Raster) (p : Nat × Nat) :
    p ∈ fgList img ↔ (p.1 < img.width ∧ p.2 < img.height) ∧ fgPix img p = true := by
  rw [fgList, List.mem_filter, mem_scanPositions]

theorem foldl_scanStep_eq (img : Raster) (l : List (Nat × Nat)) (s : BState) :
    l.foldl (scanStep img) s =
      ⟨((l.filter (fgPix img)).map Prod.fst).foldl min s.minX,
       ((l.filter (fgPix img)).map Prod.snd).foldl min s.minY,
       ((l.filter (fgPix img)).map Prod.fst).foldl max s.maxX,
       ((l.filter (fgPix img)).map Prod.snd).foldl max s.maxY,
       s.found || l.any (fgPix img)⟩ := by
  induction l generalizing s with
  | nil => simp
  | cons p t ih =>
    cases hp : fgPix img p with
    | true =>
      have hp' : isForeground (pixelAt img p.1 p.2) = true := hp
      have hstep : scanStep img s p =
          ⟨min s.minX p.1, min s.minY p.2, max s.maxX p.1, max s.maxY p.2, true⟩ := by
        rw [scanStep, if_pos hp']
      rw [List.foldl_cons, hstep, ih]
      simp [List.filter_cons, hp]
    | false =>
      have hp' : isForeground (pixelAt img p.1 p.2) = false := hp
      have hstep : scanStep img s p = s := by
        rw [scanStep, if_neg (by simp [hp'])]
      rw [List.foldl_cons, hstep, ih]
      simp [List.filter_cons, hp]

theorem getContentBounds_eq (img : Raster) :
    getContentBounds img =
      if (scanPositions img.width img.height).any (fgPix img) = true then
        some ⟨((fgList img).map Prod.fst).foldl min img.width,
              ((fgList img).map Prod.snd).foldl min img.height,
              ((fgList img).map Prod.fst).foldl max 0 -
                ((fgList img).map Prod.fst).foldl min img.width + 1,
              ((fgList img).map Prod.snd).foldl max 0 -
                ((fgList img).map Prod.snd).foldl min img.height + 1⟩
      else none := by
  rw [getContentBounds, fgList, foldl_scanStep_eq]
  simp only [Bool.false_or]

theorem getContentBounds_none_iff (img : Raster) :
    getContentBounds img = none ↔
      ∀ x y, x < img.width → y < img.height →
        isForeground (pixelAt img x y) = false := by
  rw [getContentBounds_eq]
  cases hA : (scanPositions img.width img.height).any (fgPix img) with
  | false =>
    rw [if_neg Bool.false_ne_true]
    refine iff_of_true rfl ?_
    intro x y hx hy
    cases hfg : isForeground (pixelAt img x y) with
    | false => rfl
    | true =>
      exfalso
      have hmem : (x, y) ∈ scanPositions img.width img.height :=
        (mem_scanPositions _ _ (x, y)).mpr ⟨hx, hy⟩
      have hany : (scanPositions img.width img.height).any (fgPix img) = true :=
        List.any_eq_true.mpr ⟨(x, y), hmem, by rw [fgPix_eq, hfg]⟩
      rw [hA] at hany
      exact Bool.false_ne_true hany
  | true =>
    rw [if_pos rfl]
    refine iff_of_false (Option.some_ne_none _) ?_
    intro hall
    rcases List.any_eq_true.mp hA with ⟨p, hp, hfg⟩
    rcases (mem_scanPositions _ _ p).mp hp with ⟨h1, h2⟩
    have hflip := hall p.1 p.2 h1 h2
    have hfg' : isForeground (pixelAt img p.1 p.2) = true := hfg
    rw [hflip] at hfg'
    exact Bool.false_ne_true hfg'

theorem getContentBounds_dims_pos (img : Raster) (b : Bounds)
    (hb : getContentBounds img = some b) : 1 ≤ b.w ∧ 1 ≤ b.h := by
  rw [getContentBounds_eq] at hb
  cases hA : (scanPositions img.width img.height).any (fgPix img) with
  | false => rw [hA, if_neg Bool.false_ne_true] at hb; cases hb
  | true =>
    rw [hA, if_pos rfl] at hb
    injection hb with hb
    subst hb
    exact ⟨Nat.le_add_left 1 _, Nat.le_add_left 1 _⟩

theorem getContentBounds_some_spec (img : Raster) (b : Bounds)
    (hb : getContentBounds img = some b) :
    (∀ x y, x < img.width → y < img.height → isForeground (pixelAt img x y) = true →
        b.x ≤ x ∧ x < b.x + b.w ∧ b.y ≤ y ∧ y < b.y + b.h) ∧
    (∃ y, y < img.height ∧ isForeground (pixelAt img b.x y) = true) ∧
    (∃ y, y < img.height ∧ isForeground (pixelAt img (b.x + b.w - 1) y) = true) ∧
    (∃ x, x < img.width ∧ isForeground (pixelAt img x b.y) = true) ∧
    (∃ x, x < img.width ∧ isForeground (pixelAt img x (b.y + b.h - 1)) = true) := by
  rw [getContentBounds_eq] at hb
  cases hA : (scanPositions img.width img.height).any (fgPix img) with
  | false => rw [hA, if_neg Bool.false_ne_true] at hb; cases hb
  | true =>
    rw [hA, if_pos rfl] at hb
    injection hb with hb
    subst hb
    dsimp only
    rcases List.any_eq_true.mp hA with ⟨p0, hp0L, hp0fg⟩
    have hp0F : p0 ∈ fgList img := List.mem_filter.mpr ⟨hp0L, hp0fg⟩
    have hmemW : ∀ p : Nat × Nat, p ∈ fgList img → p.1 < img.width ∧ p.2 < img.height :=
      fun p hp => (mem_scanPositions _ _ p).mp (List.mem_of_mem_filter hp)
    have hfgF : ∀ p : Nat × Nat, p ∈ fgList img →
        isForeground (pixelAt img p.1 p.2) = true :=
      fun p hp => (List.mem_filter.mp hp).2
    have hminx : ∃ p : Nat × Nat, p ∈ fgList img ∧
        p.1 = ((fgList img).map Prod.fst).foldl min img.width := by
      rcases foldl_min_init_or_mem ((fgList img).map Prod.fst) img.width with h | h
      · exfalso
        have h1 := foldl_min_le_mem ((fgList img).map Prod.fst) img.width p0.1
          (List.mem_map.mpr ⟨p0, hp0F, rfl⟩)
        have h2 := (hmemW p0 hp0F).1
        omega
      · rcases List.mem_map.mp h with ⟨p, hpF, hpx⟩
        exact ⟨p, hpF, hpx⟩
    have hmaxx : ∃ p : Nat × Nat, p ∈ fgList img ∧
        p.1 = ((fgList img).map Prod.fst).foldl max 0 := by
      rcases foldl_max_init_or_mem ((fgList img).map Prod.fst) 0 with h | h
      · have h1 := le_foldl_max_mem ((fgList img).map Prod.fst) 0 p0.1
          (List.mem_map.mpr ⟨p0, hp0F, rfl⟩)
        exact ⟨p0, hp0F, by omega⟩
      · rcases List.mem_map.mp h with ⟨p, hpF, hpx⟩
        exact ⟨p, hpF, hpx⟩
    have hminy : ∃ p : Nat × Nat, p ∈ fgList img ∧
        p.2 = ((fgList img).map Prod.snd).foldl min img.height := by
      rcases foldl_min_init_or_mem ((fgList img).map Prod.snd) img.height with h | h
      · exfalso
        have h1 := foldl_min_le_mem ((fgList img).map Prod.snd) img.height p0.2
          (List.mem_map.mpr ⟨p0, hp0F, rfl⟩)
        have h2 := (hmemW p0 hp0F).2
        omega
      · rcases List.mem_map.mp h with ⟨p, hpF, hpy⟩
        exact ⟨p, hpF, hpy⟩
    have hmaxy : ∃ p : Nat × Nat, p ∈ fgList img ∧
        p.2 = ((fgList img).map Prod.snd).foldl max 0 := by
      rcases foldl_max_init_or_mem ((fgList img).map Prod.snd) 0 with h | h
      · have h1 := le_foldl_max_mem ((fgList img).map Prod.snd) 0 p0.2
          (List.mem_map.mpr ⟨p0, hp0F, rfl⟩)
        exact ⟨p0, hp0F, by omega⟩
      · rcases List.mem_map.mp h with ⟨p, hpF, hpy⟩
        exact ⟨p, hpF, hpy⟩
    have hxrange : ((fgList img).map Prod.fst).foldl min img.width ≤
        ((fgList img).map Prod.fst).foldl max 0 := by
      rcases hmaxx with ⟨p, hpF, hpx⟩
      have := foldl_min_le_mem ((fgList img).map Prod.fst) img.width p.1
        (List.mem_map.mpr ⟨p, hpF, rfl⟩)
      omega
    have hyrange : ((fgList img).map Prod.snd).foldl min img.height ≤
        ((fgList img).map Prod.snd).foldl max 0 := by
      rcases hmaxy with ⟨p, hpF, hpy⟩
      have := foldl_min_le_mem ((fgList img).map Prod.snd) img.height p.2
        (List.mem_map.mpr ⟨p, hpF, rfl⟩)
      omega
    refine ⟨?_, ?_, ?_, ?_, ?_⟩
    · intro x y hx hy hfg
      have hmemF : (x, y) ∈ fgList img :=
        List.mem_filter.mpr ⟨(mem_scanPositions _ _ (x, y)).mpr ⟨hx, hy⟩,
          by rw [fgPix_eq]; exact hfg⟩
      have hx1 := foldl_min_le_mem ((fgList img).map Prod.fst) img.width x
        (List.mem_map.mpr ⟨(x, y), hmemF, rfl⟩)
      have hx2 := le_foldl_max_mem ((fgList img).map Prod.fst) 0 x
        (List.mem_map.mpr ⟨(x, y), hmemF, rfl⟩)
      have hy1 := foldl_min_le_mem ((fgList img).map Prod.snd) img.height y
        (List.mem_map.mpr ⟨(x, y), hmemF, rfl⟩)
      have hy2 := le_foldl_max_mem ((fgList img).map Prod.snd) 0 y
        (List.mem_map.mpr ⟨(x, y), hmemF, rfl⟩)
      exact ⟨hx1, by omega, hy1, by omega⟩
    · rcases hminx with ⟨p, hpF, hpx⟩
      exact ⟨p.2, (hmemW p hpF).2, by rw [← hpx]; exact hfgF p hpF⟩
    · rcases hmaxx with ⟨p, hpF, hpx⟩
      have harg : ((fgList img).map Prod.fst).foldl min img.width +
          (((fgList img).map Prod.fst).foldl max 0 -
            ((fgList img).map Prod.fst).foldl min img.width + 1) - 1 =
          ((fgList img).map Prod.fst).foldl max 0 := by omega
      rw [harg]
      exact ⟨p.2, (hmemW p hpF).2, by rw [← hpx]; exact hfgF p hpF⟩
    · rcases hminy with ⟨p, hpF, hpy⟩
      exact ⟨p.1, (hmemW p hpF).1, by rw [← hpy]; exact hfgF p hpF⟩
    · rcases hmaxy with ⟨p, hpF, hpy⟩
      have harg : ((fgList img).map Prod.snd).foldl min img.height +
          (((fgList img).map Prod.snd).foldl max 0 -
            ((fgList img).map Prod.snd).foldl min img.height + 1) - 1 =
          ((fgList img).map Prod.snd).foldl max 0 := by omega
      rw [harg]
      exact ⟨p.1, (hmemW p hpF).1, by rw [← hpy]; exact hfgF p hpF⟩

/-! ### Row-major grids built by nested loops -/

theorem grid_flatMap_length {α : Type} (rows cols : Nat) (g : Nat → Nat → α) :
    ((List.range rows).flatMap fun r => (List.range cols).map fun c => g r c).length
      = rows * cols := by
  induction rows with
  | zero => simp
  | succ n ih =>
    rw [List.range_succ, List.flatMap_append, List.length_append, ih]
    simp [Nat.succ_mul]

theorem grid_flatMap_getElem {α : Type} (rows cols : Nat) (g : Nat → Nat → α)
    (r c : Nat) (hr : r < rows) (hc : c < cols) :
    ((List.range rows).flatMap fun rr => (List.range cols).map fun cc => g rr cc)[r * cols + c]?
      = some (g r c) := by
  induction rows with
  | zero => cases hr
  | succ n ih =>
    rw [List.range_succ, List.flatMap_append]
    rcases Nat.lt_or_ge r n with h | h
    · rw [List.getElem?_append, if_pos]
      · exact ih h
      · rw [grid_flatMap_length]
        calc r * cols + c < r * cols + cols := by omega
          _ = (r + 1) * cols := by ring
          _ ≤ n * cols := Nat.mul_le_mul_right cols h
    · have hrn : r = n := by omega
      subst hrn
      rw [List.getElem?_append_right (by rw [grid_flatMap_length]; omega)]
      rw [grid_flatMap_length]
      have hc' : r * cols + c - r * cols = c := by omega
      rw [hc']
      simp only [List.flatMap_cons, List.flatMap_nil, List.append_nil]
      rw [List.getElem?_map, List.getElem?_range hc]
      rfl

/-! ### Indexing pixels of freshly generated rasters -/

theorem grid_index_lt (w h x y : Nat) (hx : x < w) (hy : y < h) :
    y * w + x < w * h :=
  calc y * w + x < y * w + w := by omega
    _ = (y + 1) * w := by ring
    _ ≤ h * w := Nat.mul_le_mul_right w hy
    _ = w * h := Nat.mul_comm h w

theorem grid_index_mod (w x y : Nat) (hx : x < w) : (y * w + x) % w = x := by
  rw [Nat.mul_comm, Nat.mul_add_mod]
  exact Nat.mod_eq_of_lt hx

theorem grid_index_div (w x y : Nat) (hx : x < w) : (y * w + x) / w = y := by
  have hw : 0 < w := Nat.lt_of_le_of_lt (Nat.zero_le x) hx
  rw [Nat.mul_comm, Nat.mul_add_div hw, Nat.div_eq_of_lt hx, Nat.add_zero]

theorem getElem?_range_map {α : Type} (n i : Nat) (f : Nat → α) :
    ((List.range n).map f)[i]? = if i < n then some (f i) else none := by
  rw [List.getElem?_map]
  rcases Nat.lt_or_ge i n with h | h
  · rw [List.getElem?_range h, if_pos h]
    rfl
  · rw [if_neg (by omega), List.getElem?_eq_none (by simpa using h)]
    rfl

theorem pixelAt_mk_range (w h : Nat) (f : Nat → Pixel) (x y : Nat)
    (hx : x < w) (hy : y < h) :
    pixelAt ⟨w, h, (List.range (w * h)).map f⟩ x y = f (y * w + x) := by
  rw [pixelAt]
  show (((List.range (w * h)).map f)[y * w + x]?).getD transparent = f (y * w + x)
  rw [getElem?_range_map, if_pos (grid_index_lt w h x y hx hy)]
  rfl

/-! ### The sanitising step, pixel by pixel -/

theorem shaveEdges_width (c : Raster) : (shaveEdges c).width = c.width := rfl

theorem shaveEdges_height (c : Raster) : (shaveEdges c).height = c.height := rfl

theorem removeBgPass_width (c : Raster) : (removeBgPass c).width = c.width := rfl

theorem removeBgPass_height (c : Raster) : (removeBgPass c).height = c.height := rfl

theorem sanitizeCell_width (removeBg : Bool) (c : Raster) :
    (sanitizeCell removeBg c).width = c.width := by
  rw [sanitizeCell]
  cases removeBg with
  | true => rw [if_pos rfl]; rfl
  | false => rw [if_neg Bool.false_ne_true]; rfl

theorem sanitizeCell_height (removeBg : Bool) (c : Raster) :
    (sanitizeCell removeBg c).height = c.height := by
  rw [sanitizeCell]
  cases removeBg with
  | true => rw [if_pos rfl]; rfl
  | false => rw [if_neg Bool.false_ne_true]; rfl

theorem pixelAt_shaveEdges (c : Raster) (x y : Nat) (hx : x < c.width)
    (hy : y < c.height) :
    pixelAt (shaveEdges c) x y =
      if inShaveMargin c.width c.height x y = true then transparent
      else pixelAt c x y := by
  rw [shaveEdges]
  rw [pixelAt_mk_range c.width c.height _ x y hx hy]
  rw [grid_index_mod c.width x y hx, grid_index_div c.width x y hx]
  rfl

theorem pixelAt_removeBgPass (c : Raster) (x y : Nat) :
    pixelAt (removeBgPass c) x y =
      if keyOut (pixelAt c x y) = true then { pixelAt c x y with a := 0 }
      else pixelAt c x y := by
  rw [removeBgPass, pixelAt, pixelAt]
  show ((c.data.map fun p => if keyOut p then { p with a := 0 } else p)[y * c.width + x]?).getD
      transparent = _
  rw [List.getElem?_map]
  cases hcell : c.data[y * c.width + x]? with
  | none =>
    show transparent = _
    rw [if_neg]
    · rfl
    · show ¬ keyOut ((Option.none).getD transparent) = true
      rw [Option.getD_none]
      intro hk
      cases hk
  | some p =>
    show (if keyOut p then { p with a := 0 } else p) = _
    rfl

/-! ### The partition phase -/

theorem extractCell_width (img : Raster) (ox oy fw fh : Q) :
    (extractCell img ox oy fw fh).width = fw.ceilN := rfl

theorem extractCell_height (img : Raster) (ox oy fw fh : Q) :
    (extractCell img ox oy fw fh).height = fh.ceilN := rfl

theorem partitionCells_length (img : Raster) (rows cols : Nat) :
    (partitionCells img rows cols).length = rows * cols :=
  grid_flatMap_length rows cols _

theorem partitionCells_getElem (img : Raster) (rows cols r c : Nat)
    (hr : r < rows) (hc : c < cols) :
    (partitionCells img rows cols)[r * cols + c]? =
      some (extractCell img
        ((Q.ofNat (gridArea img).x).add ((Q.ofNat c).mul
          ((Q.ofNat (gridArea img).w).div (Q.ofNat cols))))
        ((Q.ofNat (gridArea img).y).add ((Q.ofNat r).mul
          ((Q.ofNat (gridArea img).h).div (Q.ofNat rows))))
        ((Q.ofNat (gridArea img).w).div (Q.ofNat cols))
        ((Q.ofNat (gridArea img).h).div (Q.ofNat rows))) :=
  grid_flatMap_getElem rows cols _ r c hr hc

theorem partitionCells_mem_dims (img : Raster) (rows cols : Nat) (f : Raster)
    (hf : f ∈ partitionCells img rows cols) :
    f.width = ((Q.ofNat (gridArea img).w).div (Q.ofNat cols)).ceilN ∧
    f.height = ((Q.ofNat (gridArea img).h).div (Q.ofNat rows)).ceilN := by
  simp only [partitionCells] at hf
  rcases List.mem_flatMap.mp hf with ⟨r, hrm, hf2⟩
  rcases List.mem_map.mp hf2 with ⟨c, hcm, hfe⟩
  rw [← hfe]
  exact ⟨rfl, rfl⟩

/-! ### Sanitising, composed -/

theorem keyOut_transparent : keyOut transparent = false := rfl

theorem isForeground_transparent : isForeground transparent = false := rfl

theorem pixelAt_sanitize_margin (removeBg : Bool) (c : Raster) (x y : Nat)
    (hx : x < c.width) (hy : y < c.height)
    (hm : inShaveMargin c.width c.height x y = true) :
    pixelAt (sanitizeCell removeBg c) x y = transparent := by
  rw [sanitizeCell]
  have hs : pixelAt (shaveEdges c) x y = transparent := by
    rw [pixelAt_shaveEdges c x y hx hy, if_pos hm]
  cases removeBg with
  | false => rw [if_neg Bool.false_ne_true]; exact hs
  | true =>
    rw [if_pos rfl, pixelAt_removeBgPass, hs]
    rw [if_neg (by rw [keyOut_transparent]; exact Bool.false_ne_true)]

theorem pixelAt_sanitize_keep (removeBg : Bool) (c : Raster) (x y : Nat)
    (hx : x < c.width) (hy : y < c.height)
    (hm : inShaveMargin c.width c.height x y = false)
    (hk : removeBg = true → keyOut (pixelAt c x y) = false) :
    pixelAt (sanitizeCell removeBg c) x y = pixelAt c x y := by
  rw [sanitizeCell]
  have hs : pixelAt (shaveEdges c) x y = pixelAt c x y := by
    rw [pixelAt_shaveEdges c x y hx hy, if_neg (by rw [hm]; exact Bool.false_ne_true)]
  cases removeBg with
  | false => rw [if_neg Bool.false_ne_true]; exact hs
  | true =>
    rw [if_pos rfl, pixelAt_removeBgPass, hs]
    rw [if_neg (by rw [hk rfl]; exact Bool.false_ne_true)]

theorem pixelAt_sanitize_keyOut (c : Raster) (x y : Nat)
    (hx : x < c.width) (hy : y < c.height)
    (hk : keyOut (pixelAt c x y) = true) :
    (pixelAt (sanitizeCell true c) x y).a = 0 := by
  cases hm : inShaveMargin c.width c.height x y with
  | true => rw [pixelAt_sanitize_margin true c x y hx hy hm]; rfl
  | false =>
    rw [sanitizeCell, if_pos rfl, pixelAt_removeBgPass]
    have hs : pixelAt (shaveEdges c) x y = pixelAt c x y := by
      rw [pixelAt_shaveEdges c x y hx hy, if_neg (by rw [hm]; exact Bool.false_ne_true)]
    rw [hs, if_pos hk]

/-! ### The normalising step -/

theorem renderCentered_width (f : Raster) (b : Option Bounds) (fw fh : Nat) :
    (renderCentered f b fw fh).width = fw := by
  cases b with
  | none => rfl
  | some bb => rfl

theorem renderCentered_height (f : Raster) (b : Option Bounds) (fw fh : Nat) :
    (renderCentered f b fw fh).height = fh := by
  cases b with
  | none => rfl
  | some bb => rfl

theorem renderCentered_none (f : Raster) (fw fh : Nat) :
    renderCentered f none fw fh = blankRaster fw fh := rfl

theorem maxDims_foldl (bs : List (Option Bounds)) (m : Nat × Nat) :
    bs.foldl (fun m b => match b with
      | some bb => (max m.1 bb.w, max m.2 bb.h)
      | none => m) m =
      (((bs.filterMap id).map Bounds.w).foldl max m.1,
       ((bs.filterMap id).map Bounds.h).foldl max m.2) := by
  induction bs generalizing m with
  | nil => rfl
  | cons b t ih =>
    cases b with
    | none =>
      rw [List.foldl_cons]
      show t.foldl _ m = _
      rw [ih m]
      simp [List.filterMap_cons]
    | some bb =>
      rw [List.foldl_cons]
      show t.foldl _ (max m.1 bb.w, max m.2 bb.h) = _
      rw [ih (max m.1 bb.w, max m.2 bb.h)]
      simp [List.filterMap_cons]

theorem maxDims_def_eq (frames : List Raster) :
    maxDims (frames.map getContentBounds) = (maxBoundW frames, maxBoundH frames) := by
  rw [maxDims, maxDims_foldl, maxBoundW, maxBoundH]
  rw [List.filterMap_map]
  rw [Function.id_comp]

theorem align_eq_nil (frames : List Raster)
    (h : ∀ f ∈ frames, getContentBounds f = none) :
    alignAndMaximizeFrames frames = [] := by
  simp only [alignAndMaximizeFrames, maxDims_def_eq]
  have hfm : frames.filterMap getContentBounds = [] := List.filterMap_eq_nil_iff.mpr h
  rw [if_pos]
  rw [maxBoundW, hfm]
  exact Or.inl rfl

theorem maxBound_pos (frames : List Raster) (f0 : Raster) (b : Bounds)
    (hf0 : f0 ∈ frames) (hb : getContentBounds f0 = some b) :
    1 ≤ maxBoundW frames ∧ 1 ≤ maxBoundH frames := by
  have hpos := getContentBounds_dims_pos f0 b hb
  have hbw : b.w ∈ (frames.filterMap getContentBounds).map Bounds.w :=
    List.mem_map.mpr ⟨b, List.mem_filterMap.mpr ⟨f0, hf0, hb⟩, rfl⟩
  have hbh : b.h ∈ (frames.filterMap getContentBounds).map Bounds.h :=
    List.mem_map.mpr ⟨b, List.mem_filterMap.mpr ⟨f0, hf0, hb⟩, rfl⟩
  have h1 := le_foldl_max_mem _ 0 b.w hbw
  have h2 := le_foldl_max_mem _ 0 b.h hbh
  rw [maxBoundW, maxBoundH]
  omega

theorem align_eq_map (frames : List Raster) (f0 : Raster) (hf0 : f0 ∈ frames)
    (hb : getContentBounds f0 ≠ none) :
    alignAndMaximizeFrames frames =
      frames.map fun f => renderCentered f (getContentBounds f)
        (maxBoundW frames + 2 * 2) (maxBoundH frames + 2 * 2) := by
  obtain ⟨b, hbs⟩ : ∃ b, getContentBounds f0 = some b := by
    cases hc : getContentBounds f0 with
    | none => exact absurd hc hb
    | some bb => exact ⟨bb, rfl⟩
  have hpos := maxBound_pos frames f0 b hf0 hbs
  simp only [alignAndMaximizeFrames, maxDims_def_eq]
  rw [if_neg (by omega)]

/-! ### Idempotence of the edge shave -/

theorem shaveEdges_idem (c : Raster) : shaveEdges (shaveEdges c) = shaveEdges c := by
  have hd : ∀ i ∈ List.range (c.width * c.height),
      (if inShaveMargin c.width c.height (i % c.width) (i / c.width) then transparent
       else ((shaveEdges c).data[i]?).getD transparent) =
      (if inShaveMargin c.width c.height (i % c.width) (i / c.width) then transparent
       else (c.data[i]?).getD transparent) := by
    intro i hi
    have hin : i < c.width * c.height := List.mem_range.mp hi
    have hdata : (shaveEdges c).data[i]? =
        some (if inShaveMargin c.width c.height (i % c.width) (i / c.width) then transparent
              else (c.data[i]?).getD transparent) := by
      show ((List.range (c.width * c.height)).map _)[i]? = _
      rw [getElem?_range_map, if_pos hin]
    rw [hdata]
    cases hm : inShaveMargin c.width c.height (i % c.width) (i / c.width) with
    | true => simp [hm]
    | false => simp [hm]
  show (⟨c.width, c.height, (List.range (c.width * c.height)).map fun i =>
      if inShaveMargin c.width c.height (i % c.width) (i / c.width) then transparent
      else ((shaveEdges c).data[i]?).getD transparent⟩ : Raster) =
    ⟨c.width, c.height, (List.range (c.width * c.height)).map fun i =>
      if inShaveMargin c.width c.height (i % c.width) (i / c.width) then transparent
      else (c.data[i]?).getD transparent⟩
  congr 1
  exact List.map_congr_left hd

theorem sanitizeCell_false_eq (c : Raster) : sanitizeCell false c = shaveEdges c := by
  rw [sanitizeCell, if_neg Bool.false_ne_true]

/-! ### Degenerate cells: the shave clears everything -/

theorem inShaveMargin_of_small (w h x y : Nat) (hwh : w ≤ 8 ∨ h ≤ 8) :
    inShaveMargin w h x y = true := by
  simp only [inShaveMargin, safetyShave, Bool.or_eq_true, decide_eq_true_eq]
  omega

theorem sanitize_small_bounds_none (removeBg : Bool) (c : Raster)
    (h : c.width ≤ 8 ∨ c.height ≤ 8) :
    getContentBounds (sanitizeCell removeBg c) = none := by
  rw [getContentBounds_none_iff]
  intro x y hx hy
  rw [sanitizeCell_width] at hx
  rw [sanitizeCell_height] at hy
  rw [pixelAt_sanitize_margin removeBg c x y hx hy (inShaveMargin_of_small _ _ _ _ h)]
  exact isForeground_transparent

/-! ### The orchestrator -/

theorem sliceSpriteSheet_none_eq (rows cols : Nat) (bg : Bool) :
    sliceSpriteSheet none rows cols bg = [] := rfl

theorem sliceSpriteSheet_some_eq (img : Raster) (rows cols : Nat) (bg : Bool) :
    sliceSpriteSheet (some img) rows cols bg =
      alignAndMaximizeFrames (sanitizedCells img rows cols bg) := rfl

theorem sanitizedCells_length (img : Raster) (rows cols : Nat) (bg : Bool) :
    (sanitizedCells img rows cols bg).length = rows * cols := by
  rw [sanitizedCells, List.length_map, partitionCells_length]

/-! ### The claims -/

/-- C2: the Content-Bounds Detector returns `none` iff no pixel is foreground
(alpha > 20 and at least one of r/g/b < 240); otherwise it returns exactly the
smallest axis-aligned rectangle containing all foreground pixels: every
foreground pixel lies inside the returned box and every one of its four edges
is attained by a foreground pixel, which pins the box to
`{x: minX, y: minY, w: maxX - minX + 1, h: maxY - minY + 1}`.  In particular a
fully transparent raster and a fully near-white raster both yield `none`. -/
theorem getContentBounds_spec (img : Raster) :
    (getContentBounds img = none ↔
      ∀ x y, x < img.width → y < img.height →
        isForeground (pixelAt img x y) = false) ∧
    (∀ b, getContentBounds img = some b →
      (∀ x y, x < img.width → y < img.height → isForeground (pixelAt img x y) = true →
          b.x ≤ x ∧ x < b.x + b.w ∧ b.y ≤ y ∧ y < b.y + b.h) ∧
      (∃ y, y < img.height ∧ isForeground (pixelAt img b.x y) = true) ∧
      (∃ y, y < img.height ∧ isForeground (pixelAt img (b.x + b.w - 1) y) = true) ∧
      (∃ x, x < img.width ∧ isForeground (pixelAt img x b.y) = true) ∧
      (∃ x, x < img.width ∧ isForeground (pixelAt img x (b.y + b.h - 1)) = true)) :=
  ⟨getContentBounds_none_iff img, fun b hb => getContentBounds_some_spec img b hb⟩

/-- Witness for C2 at a concrete 2 × 2 raster whose single foreground pixel is
at (1, 1): the detected box contains that pixel. -/
theorem getContentBounds_spec_witness :
    (Bounds.mk 1 1 1 1).x ≤ 1 ∧ 1 < (Bounds.mk 1 1 1 1).x + (Bounds.mk 1 1 1 1).w ∧
    (Bounds.mk 1 1 1 1).y ≤ 1 ∧ 1 < (Bounds.mk 1 1 1 1).y + (Bounds.mk 1 1 1 1).h :=
  ((getContentBounds_spec imgC2).2 ⟨1, 1, 1, 1⟩ (by decide)).1 1 1 (by decide)
    (by decide) (by decide)

/-- C3: the Grid Partitioner produces exactly rows × cols cell rasters in
row-major order; the grid area is the global content box (or the whole raster
when no content is found); the cell at grid position (r, c) is extracted at
real-valued offset `(gridArea.x + c * cellW, gridArea.y + r * cellH)` with
real-valued size `cellW = gridArea.w / cols`, `cellH = gridArea.h / rows`, and
every output cell raster has integer size `ceil(cellW) × ceil(cellH)`. -/
theorem partition_rowMajor_spec (img : Raster) (rows cols : Nat)
    (hr : 1 ≤ rows) (hc : 1 ≤ cols) :
    (partitionCells img rows cols).length = rows * cols ∧
    (∀ r c, r < rows → c < cols →
      (partitionCells img rows cols)[r * cols + c]? =
        some (extractCell img
          ((Q.ofNat (gridArea img).x).add ((Q.ofNat c).mul
            ((Q.ofNat (gridArea img).w).div (Q.ofNat cols))))
          ((Q.ofNat (gridArea img).y).add ((Q.ofNat r).mul
            ((Q.ofNat (gridArea img).h).div (Q.ofNat rows))))
          ((Q.ofNat (gridArea img).w).div (Q.ofNat cols))
          ((Q.ofNat (gridArea img).h).div (Q.ofNat rows)))) ∧
    (∀ f ∈ partitionCells img rows cols,
      f.width = ((Q.ofNat (gridArea img).w).div (Q.ofNat cols)).ceilN ∧
      f.height = ((Q.ofNat (gridArea img).h).div (Q.ofNat rows)).ceilN) ∧
    (∀ b, getContentBounds img = some b → gridArea img = b) ∧
    (getContentBounds img = none → gridArea img = ⟨0, 0, img.width, img.height⟩) :=
  ⟨partitionCells_length img rows cols,
   fun r c hr' hc' => partitionCells_getElem img rows cols r c hr' hc',
   fun f hf => partitionCells_mem_dims img rows cols f hf,
   fun b hb => by unfold gridArea; rw [hb],
   fun hn => by unfold gridArea; rw [hn]⟩

/-- Witness for C3 at a concrete 1 × 1 grid. -/
theorem partition_rowMajor_spec_witness :
    (partitionCells imgInk1 1 1).length = 1 * 1 :=
  (partition_rowMajor_spec imgInk1 1 1 (by decide) (by decide)).1

/-- C4: when at least one input cell has detected content, every raster output
by the Frame Normalizer has the same width and the same height, namely
`(maxW + 2·pad) × (maxH + 2·pad)` with `pad = 2`, where `maxW`/`maxH` are the
maxima of the detected content widths/heights over the non-empty cells. -/
theorem normalize_uniform_size (frames : List Raster)
    (h : ∃ f ∈ frames, getContentBounds f ≠ none) :
    ∀ g ∈ alignAndMaximizeFrames frames,
      g.width = maxBoundW frames + 2 * 2 ∧ g.height = maxBoundH frames + 2 * 2 := by
  rcases h with ⟨f0, hf0, hb⟩
  rw [align_eq_map frames f0 hf0 hb]
  intro g hg
  rcases List.mem_map.mp hg with ⟨f, hf, hge⟩
  rw [← hge, renderCentered_width, renderCentered_height]
  exact ⟨rfl, rfl⟩

/-- Witness for C4 at a concrete singleton frame list with content. -/
theorem normalize_uniform_size_witness :
    (renderCentered imgInk1 (getContentBounds imgInk1)
        (maxBoundW [imgInk1] + 2 * 2) (maxBoundH [imgInk1] + 2 * 2)).width =
      maxBoundW [imgInk1] + 2 * 2 ∧
    (renderCentered imgInk1 (getContentBounds imgInk1)
        (maxBoundW [imgInk1] + 2 * 2) (maxBoundH [imgInk1] + 2 * 2)).height =
      maxBoundH [imgInk1] + 2 * 2 :=
  normalize_uniform_size [imgInk1] ⟨imgInk1, by decide, by decide⟩ _ (by decide)

/-- C6: when some but not all cells have detected content, every cell with no
detected content keeps its position in the output sequence and is rendered as
a fully transparent frame of the same uniform frame size as the others; empty
cells are never dropped (the output has one frame per input cell). -/
theorem blank_cells_preserved (frames : List Raster)
    (hsome : ∃ f ∈ frames, getContentBounds f ≠ none)
    (hnone : ∃ f ∈ frames, getContentBounds f = none) :
    (alignAndMaximizeFrames frames).length = frames.length ∧
    (∀ (i : Nat) (f : Raster), frames[i]? = some f → getContentBounds f = none →
      (alignAndMaximizeFrames frames)[i]? =
        some (blankRaster (maxBoundW frames + 2 * 2) (maxBoundH frames + 2 * 2))) ∧
    (∀ p ∈ (blankRaster (maxBoundW frames + 2 * 2) (maxBoundH frames + 2 * 2)).data,
      p = transparent) := by
  rcases hsome with ⟨f0, hf0, hb⟩
  rw [align_eq_map frames f0 hf0 hb]
  refine ⟨List.length_map .., ?_, ?_⟩
  · intro i f hif hbn
    rw [List.getElem?_map, hif]
    show some (renderCentered f (getContentBounds f) _ _) = _
    rw [hbn, renderCentered_none]
  · intro p hp
    exact List.eq_of_mem_replicate hp

/-- Witness for C6: a two-frame list where the second frame is blank; the
second output frame is the fully transparent uniform-size canvas. -/
theorem blank_cells_preserved_witness :
    (alignAndMaximizeFrames [imgInk1, imgClear1])[1]? =
      some (blankRaster (maxBoundW [imgInk1, imgClear1] + 2 * 2)
        (maxBoundH [imgInk1, imgClear1] + 2 * 2)) :=
  (blank_cells_preserved [imgInk1, imgClear1]
      ⟨imgInk1, by decide, by decide⟩ ⟨imgClear1, by decide, by decide⟩).2.1 1 imgClear1
    (by decide) (by decide)

/-- C7: after the Cell Sanitizer runs on a cell, every pixel within the 4 px
margin of any border has alpha 0; when removeBackground is true, every pixel
whose red, green and blue all exceed 230 has alpha 0; and every remaining
pixel is unchanged from the extracted cell. -/
theorem sanitize_cell_spec (removeBg : Bool) (c : Raster) (x y : Nat)
    (hx : x < c.width) (hy : y < c.height) :
    (inShaveMargin c.width c.height x y = true →
      (pixelAt (sanitizeCell removeBg c) x y).a = 0) ∧
    (removeBg = true → keyOut (pixelAt c x y) = true →
      (pixelAt (sanitizeCell removeBg c) x y).a = 0) ∧
    (inShaveMargin c.width c.height x y = false →
      (removeBg = true → keyOut (pixelAt c x y) = false) →
      pixelAt (sanitizeCell removeBg c) x y = pixelAt c x y) := by
  refine ⟨?_, ?_, ?_⟩
  · intro hm
    rw [pixelAt_sanitize_margin removeBg c x y hx hy hm]
    rfl
  · intro hbg hk
    subst hbg
    exact pixelAt_sanitize_keyOut c x y hx hy hk
  · intro hm hk
    exact pixelAt_sanitize_keep removeBg c x y hx hy hm hk

/-- Witness for C7: the corner pixel of a concrete cell is cleared. -/
theorem sanitize_cell_spec_witness :
    (pixelAt (sanitizeCell true imgC2) 0 0).a = 0 :=
  (sanitize_cell_spec true imgC2 0 0 (by decide) (by decide)).1 (by decide)

/-- C8: the Cell Sanitizer with removeBackground = false is idempotent:
applying it twice yields a result identical to applying it once. -/
theorem sanitize_idempotent (c : Raster) :
    sanitizeCell false (sanitizeCell false c) = sanitizeCell false c := by
  rw [sanitizeCell_false_eq, sanitizeCell_false_eq, shaveEdges_idem]

/-- C9: the background-removal pass modifies only the alpha channel: red,
green and blue are preserved at every pixel, and alpha is changed (to 0) only
for pixels whose red, green and blue all exceed 230. -/
theorem removeBg_alpha_only (c : Raster) (x y : Nat)
    (hx : x < c.width) (hy : y < c.height) :
    (pixelAt (removeBgPass c) x y).r = (pixelAt c x y).r ∧
    (pixelAt (removeBgPass c) x y).g = (pixelAt c x y).g ∧
    (pixelAt (removeBgPass c) x y).b = (pixelAt c x y).b ∧
    (keyOut (pixelAt c x y) = true → (pixelAt (removeBgPass c) x y).a = 0) ∧
    (keyOut (pixelAt c x y) = false →
      (pixelAt (removeBgPass c) x y).a = (pixelAt c x y).a) := by
  rw [pixelAt_removeBgPass]
  cases hk : keyOut (pixelAt c x y) with
  | true =>
    rw [if_pos rfl]
    exact ⟨rfl, rfl, rfl, fun _ => rfl, fun hcontra => absurd hcontra (by decide)⟩
  | false =>
    rw [if_neg Bool.false_ne_true]
    exact ⟨rfl, rfl, rfl, fun hcontra => absurd hcontra (by decide), fun _ => rfl⟩

/-- Witness for C9 at a concrete near-white pixel. -/
theorem removeBg_alpha_only_witness :
    (pixelAt (removeBgPass imgWhite1) 0 0).r = (pixelAt imgWhite1 0 0).r ∧
    (pixelAt (removeBgPass imgWhite1) 0 0).g = (pixelAt imgWhite1 0 0).g ∧
    (pixelAt (removeBgPass imgWhite1) 0 0).b = (pixelAt imgWhite1 0 0).b ∧
    (keyOut (pixelAt imgWhite1 0 0) = true →
      (pixelAt (removeBgPass imgWhite1) 0 0).a = 0) ∧
    (keyOut (pixelAt imgWhite1 0 0) = false →
      (pixelAt (removeBgPass imgWhite1) 0 0).a = (pixelAt imgWhite1 0 0).a) :=
  removeBg_alpha_only imgWhite1 0 0 (by decide) (by decide)

/-- C5: `sliceSpriteSheet` never rejects (it is a total function in this
model): on decode failure it resolves with the empty sequence, and when decode
succeeds but no sanitised cell contains any foreground content (so the Frame
Normalizer short-circuits on `maxW = 0 || maxH = 0`) it also resolves with the
empty sequence. -/
theorem slice_resolves_empty (rows cols : Nat) (bg : Bool) :
    sliceSpriteSheet none rows cols bg = [] ∧
    (∀ img : Raster,
      (∀ f ∈ sanitizedCells img rows cols bg,
        ∀ x < f.width, ∀ y < f.height, isForeground (pixelAt f x y) = false) →
      sliceSpriteSheet (some img) rows cols bg = []) := by
  refine ⟨rfl, ?_⟩
  intro img hall
  rw [sliceSpriteSheet_some_eq]
  apply align_eq_nil
  intro f hf
  rw [getContentBounds_none_iff]
  intro x y hx hy
  exact hall f hf x hx y hy

/-- Witness for C5 at the fully white decoded 1 × 1 image. -/
theorem slice_resolves_empty_witness :
    sliceSpriteSheet (some imgWhite1) 1 1 false = [] :=
  (slice_resolves_empty 1 1 false).2 imgWhite1 (by decide)

/-- C10: when the grid area gives cells with `ceil(cellW) ≤ 8` or
`ceil(cellH) ≤ 8` (no larger than twice the 4 px shave margin), the edge shave
clears every pixel of every cell, so `sliceSpriteSheet` returns the empty
sequence even though the source image contains foreground content. -/
theorem small_cells_yield_empty (img : Raster) (rows cols : Nat) (bg : Bool)
    (hsmall : ((Q.ofNat (gridArea img).w).div (Q.ofNat cols)).ceilN ≤ 8 ∨
      ((Q.ofNat (gridArea img).h).div (Q.ofNat rows)).ceilN ≤ 8)
    (hfg : ∃ p : Nat × Nat, p.1 < img.width ∧ p.2 < img.height ∧
      isForeground (pixelAt img p.1 p.2) = true) :
    sliceSpriteSheet (some img) rows cols bg = [] := by
  rw [sliceSpriteSheet_some_eq]
  apply align_eq_nil
  intro f hf
  simp only [sanitizedCells] at hf
  rcases List.mem_map.mp hf with ⟨cell, hcell, hfe⟩
  have hdims := partitionCells_mem_dims img rows cols cell hcell
  rw [← hfe]
  apply sanitize_small_bounds_none
  rcases hsmall with h | h
  · exact Or.inl (by rw [hdims.1]; exact h)
  · exact Or.inr (by rw [hdims.2]; exact h)

/-- Witness for C10: a 1 × 1 source image with content sliced 1 × 1 gives a
1 × 1 cell (≤ 8), and the slicer returns no frames. -/
theorem small_cells_yield_empty_witness :
    sliceSpriteSheet (some imgInk1) 1 1 false = [] :=
  small_cells_yield_empty imgInk1 1 1 false (Or.inl (by decide))
    ⟨(0, 0), by decide, by decide, by decide⟩

/-- C1 counterexample: the fully white 1 × 1 image decodes successfully and
rows = cols = 1, yet the slicer returns 0 frames, not rows × cols = 1 — so a
successfully decoded source can also yield a length-0 sequence. -/
theorem slice_length_counterexample :
    (some imgWhite1 ≠ (none : Option Raster)) ∧ 1 * 1 ≠ 0 ∧
    (sliceSpriteSheet (some imgWhite1) 1 1 false).length = 0 :=
  ⟨by decide, by decide, by decide⟩

/-- C1 amended: for rows, cols ≥ 1 the orchestrator returns either exactly
rows × cols frames or the empty sequence; the empty sequence occurs exactly
when decode fails or when no sanitised cell has detected content, and the
full count occurs exactly when decode succeeds and some sanitised cell has
detected content. -/
theorem slice_length_dichotomy (dec : Option Raster) (rows cols : Nat) (bg : Bool)
    (hr : 1 ≤ rows) (hc : 1 ≤ cols) :
    (sliceSpriteSheet dec rows cols bg = [] ∧
      (dec = none ∨ ∃ img, dec = some img ∧
        ∀ f ∈ sanitizedCells img rows cols bg, getContentBounds f = none)) ∨
    ((sliceSpriteSheet dec rows cols bg).length = rows * cols ∧
      ∃ img, dec = some img ∧
        ∃ f ∈ sanitizedCells img rows cols bg, getContentBounds f ≠ none) := by
  cases dec with
  | none => exact Or.inl ⟨rfl, Or.inl rfl⟩
  | some img =>
    by_cases hall : ∀ f ∈ sanitizedCells img rows cols bg, getContentBounds f = none
    · exact Or.inl ⟨by rw [sliceSpriteSheet_some_eq]; exact align_eq_nil _ hall,
        Or.inr ⟨img, rfl, hall⟩⟩
    · push_neg at hall
      rcases hall with ⟨f0, hf0, hb⟩
      refine Or.inr ⟨?_, img, rfl, f0, hf0, hb⟩
      rw [sliceSpriteSheet_some_eq, align_eq_map _ f0 hf0 hb, List.length_map,
        sanitizedCells_length]

/-- Witness for the amended C1 at a concrete decoded input. -/
theorem slice_length_dichotomy_witness :
    (sliceSpriteSheet (some imgWhite1) 1 1 false = [] ∧
      (some imgWhite1 = none ∨ ∃ img, some imgWhite1 = some img ∧
        ∀ f ∈ sanitizedCells img 1 1 false, getContentBounds f = none)) ∨
    ((sliceSpriteSheet (some imgWhite1) 1 1 false).length = 1 * 1 ∧
      ∃ img, some imgWhite1 = some img ∧
        ∃ f ∈ sanitizedCells img 1 1 false, getContentBounds f ≠ none) :=
  slice_length_dichotomy (some imgWhite1) 1 1 false (by decide) (by decide)

end ToonMotion
